import Mathlib

/-!
Verification of the ClaudeWatch rate-limit detection and learning pipeline.

Shallow embedding of the core of the repository:
* `RateLimitPatterns.extract_rate_limit_info` (regex classifier) from
  `src/claude_monitor/monitoring/enhanced_proxy_monitor.py`,
* `SessionMetrics` (in-memory accumulator) from the same file,
* `EnhancedProxyMonitor._store_learned_limit` (learning updater),
* `EnhancedDatabaseManager` table semantics (foreign keys, upserts,
  error swallowing) from `Src/ClaudeMonitor/Data/EnhancedDatabase.py`,
* `SessionContext._generate_isolation_key` from
  `Src/ClaudeMonitor/Core/SessionDetector.py`.

Python machine-level details are made explicit: `int()` applied to a float
truncates toward zero (`pyTrunc`), `round()` rounds half to even (`pyRound`),
regular-expression search follows Python `re.search` leftmost-match
backtracking semantics with greedy (`.*`, `\s*`, `(\d+)`, `s?`) and lazy
(`.*?`) quantifiers.  All the regular expressions of the source consist only
of the token shapes: literal character, `.*`, `.*?`, `\s*`, `(\d+)`
(the unique capture group) and an optional trailing character `c?`, so the
embedding represents a pattern as a list of such tokens.
-/

namespace ClaudeWatch

/-! ### Character classes and Python string helpers -/

/-- ASCII decimal digit, the `\d` class restricted to ASCII (all inputs in
the repository's logs are ASCII). -/
def isDigitChar (c : Char) : Bool := 48 ≤ c.toNat && c.toNat ≤ 57

/-- ASCII whitespace, the `\s` class: space, tab, newline, carriage return,
vertical tab, form feed. -/
def isSpaceChar (c : Char) : Bool :=
  c == ' ' || c == '\t' || c == '\n' || c == '\r' ||
  c == Char.ofNat 11 || c == Char.ofNat 12

/-- What `.` matches in Python `re` without `DOTALL`: any character except
a newline. -/
def isDotChar (c : Char) : Bool := c != '\n'

/-- ASCII lowering, as done by `str.lower()` on ASCII text. -/
def lowerChar (c : Char) : Char :=
  if 65 ≤ c.toNat && c.toNat ≤ 90 then Char.ofNat (c.toNat + 32) else c

/-- Source `text.lower()` as a list of characters. -/
def pyLower (s : String) : List Char := s.data.map lowerChar

/-- Source `str.strip()`: remove leading and trailing whitespace. -/
def pyStrip (s : String) : String :=
  String.mk (((s.data.dropWhile isSpaceChar).reverse.dropWhile isSpaceChar).reverse)

/-- Value of a string of ASCII digits, most significant first
(what Python `int` returns on a digit string). -/
def digitsVal (g : List Char) : Nat :=
  g.foldl (fun a c => 10 * a + (c.toNat - 48)) 0

/-- Source `str.isdigit()`: true iff the string is nonempty and all digits. -/
def isdigitL (g : List Char) : Bool := !g.isEmpty && g.all isDigitChar

/-! ### Regex tokens

Every regular expression appearing in `RateLimitPatterns` is a flat
sequence of these tokens. -/

/-- One token of a `RateLimitPatterns` regular expression. -/
inductive RTok where
  /-- a literal character -/
  | lit (c : Char)
  /-- Source `.*` (greedy) -/
  | dotStarG
  /-- Source `.*?` (lazy) -/
  | dotStarL
  /-- Source `\s*` (greedy) -/
  | wsStar
  /-- Source `(\d+)` — the single capture group, greedy -/
  | grpDigits
  /-- Source `c?` — optional character, greedy -/
  | optChar (c : Char)
  deriving DecidableEq, Repr

/-- Literal characters of a string as regex tokens. -/
def litToks (s : String) : List RTok := s.data.map RTok.lit

/-- Try `f` on `s.drop i` for each `i` in the given order; first success
wins (the backtracking order of a star quantifier). -/
def tryIdx (f : List Char → Option (Option (List Char)))
    (s : List Char) : List Nat → Option (Option (List Char))
  | [] => none
  | i :: is =>
    match f (s.drop i) with
    | some r => some r
    | none => tryIdx f s is

/-- Like `tryIdx`, but records the consumed prefix `s.take i` as the value
of the capture group `(\d+)`. -/
def tryDigitIdx (f : List Char → Option (Option (List Char)))
    (s : List Char) : List Nat → Option (Option (List Char))
  | [] => none
  | i :: is =>
    match f (s.drop i) with
    | some _ => some (some (s.take i))
    | none => tryDigitIdx f s is

/-- Match a token list against a prefix of `s` with Python backtracking
semantics.  Returns `none` on failure, `some cap` on success where `cap` is
the text captured by the `(\d+)` group (if it participated). -/
def mFrom : List RTok → List Char → Option (Option (List Char))
  | [], _ => some none
  | .lit c :: ts, s =>
    match s with
    | [] => none
    | x :: xs => if x = c then mFrom ts xs else none
  | .optChar c :: ts, s =>
    match s with
    | [] => mFrom ts []
    | x :: xs =>
      if x = c then
        match mFrom ts xs with
        | some r => some r
        | none => mFrom ts (x :: xs)
      else mFrom ts (x :: xs)
  | .dotStarG :: ts, s =>
    tryIdx (fun s2 => mFrom ts s2) s
      (List.range ((s.takeWhile isDotChar).length + 1)).reverse
  | .dotStarL :: ts, s =>
    tryIdx (fun s2 => mFrom ts s2) s
      (List.range ((s.takeWhile isDotChar).length + 1))
  | .wsStar :: ts, s =>
    tryIdx (fun s2 => mFrom ts s2) s
      (List.range ((s.takeWhile isSpaceChar).length + 1)).reverse
  | .grpDigits :: ts, s =>
    tryDigitIdx (fun s2 => mFrom ts s2) s
      (List.range' 1 ((s.takeWhile isDigitChar).length)).reverse

/-- Source `re.search`: try to match at every start position, leftmost first. -/
def reSearch (toks : List RTok) : List Char → Option (Option (List Char))
  | [] => mFrom toks []
  | x :: xs =>
    match mFrom toks (x :: xs) with
    | some r => some r
    | none => reSearch toks xs

/-! ### The patterns of `RateLimitPatterns`

Each constant holds the original regex source text (used for the
`pattern_matched` field) and its token-list translation. -/

/-- A compiled pattern: regex source text plus its token sequence. -/
structure RPat where
  src : String
  toks : List RTok
  deriving DecidableEq, Repr

namespace RateLimitPatterns

/-- Source `approaching.*rate\s*limit.*?(\d+).*?tokens?` -/
def pApp1 : RPat :=
  ⟨"approaching.*rate\\s*limit.*?(\\d+).*?tokens?",
   litToks "approaching" ++ [.dotStarG] ++ litToks "rate" ++ [.wsStar] ++
   litToks "limit" ++ [.dotStarL, .grpDigits, .dotStarL] ++
   litToks "token" ++ [.optChar 's']⟩

/-- Source `usage.*warning.*?(\d+).*?remaining` -/
def pApp2 : RPat :=
  ⟨"usage.*warning.*?(\\d+).*?remaining",
   litToks "usage" ++ [.dotStarG] ++ litToks "warning" ++
   [.dotStarL, .grpDigits, .dotStarL] ++ litToks "remaining"⟩

/-- Source `rate\s*limit.*?approaching.*?(\d+)` -/
def pApp3 : RPat :=
  ⟨"rate\\s*limit.*?approaching.*?(\\d+)",
   litToks "rate" ++ [.wsStar] ++ litToks "limit" ++ [.dotStarL] ++
   litToks "approaching" ++ [.dotStarL, .grpDigits]⟩

/-- Source `token.*?usage.*?high.*?(\d+)` -/
def pApp4 : RPat :=
  ⟨"token.*?usage.*?high.*?(\\d+)",
   litToks "token" ++ [.dotStarL] ++ litToks "usage" ++ [.dotStarL] ++
   litToks "high" ++ [.dotStarL, .grpDigits]⟩

/-- Source `(\d+).*?tokens?.*?remaining.*?session` -/
def pApp5 : RPat :=
  ⟨"(\\d+).*?tokens?.*?remaining.*?session",
   [.grpDigits, .dotStarL] ++ litToks "token" ++ [.optChar 's', .dotStarL] ++
   litToks "remaining" ++ [.dotStarL] ++ litToks "session"⟩

/-- Source `rate\s*limit.*?reached.*?(\d+)` -/
def pRch1 : RPat :=
  ⟨"rate\\s*limit.*?reached.*?(\\d+)",
   litToks "rate" ++ [.wsStar] ++ litToks "limit" ++ [.dotStarL] ++
   litToks "reached" ++ [.dotStarL, .grpDigits]⟩

/-- Source `limit.*?exceeded.*?(\d+).*?tokens?` -/
def pRch2 : RPat :=
  ⟨"limit.*?exceeded.*?(\\d+).*?tokens?",
   litToks "limit" ++ [.dotStarL] ++ litToks "exceeded" ++
   [.dotStarL, .grpDigits, .dotStarL] ++ litToks "token" ++ [.optChar 's']⟩

/-- Source `maximum.*?usage.*?reached.*?(\d+)` -/
def pRch3 : RPat :=
  ⟨"maximum.*?usage.*?reached.*?(\\d+)",
   litToks "maximum" ++ [.dotStarL] ++ litToks "usage" ++ [.dotStarL] ++
   litToks "reached" ++ [.dotStarL, .grpDigits]⟩

/-- Source `session.*?limit.*?hit.*?(\d+)` -/
def pRch4 : RPat :=
  ⟨"session.*?limit.*?hit.*?(\\d+)",
   litToks "session" ++ [.dotStarL] ++ litToks "limit" ++ [.dotStarL] ++
   litToks "hit" ++ [.dotStarL, .grpDigits]⟩

/-- Source `quota.*?exhausted.*?(\d+)` -/
def pRch5 : RPat :=
  ⟨"quota.*?exhausted.*?(\\d+)",
   litToks "quota" ++ [.dotStarL] ++ litToks "exhausted" ++
   [.dotStarL, .grpDigits]⟩

/-- Source `limit reached\|(\d+)` -/
def pRch6 : RPat :=
  ⟨"limit reached\\|(\\d+)", litToks "limit reached|" ++ [.grpDigits]⟩

/-- Source `message.*?limit.*?reached.*?(\d+)` -/
def pMsg1 : RPat :=
  ⟨"message.*?limit.*?reached.*?(\\d+)",
   litToks "message" ++ [.dotStarL] ++ litToks "limit" ++ [.dotStarL] ++
   litToks "reached" ++ [.dotStarL, .grpDigits]⟩

/-- Source `conversation.*?limit.*?exceeded.*?(\d+)` -/
def pMsg2 : RPat :=
  ⟨"conversation.*?limit.*?exceeded.*?(\\d+)",
   litToks "conversation" ++ [.dotStarL] ++ litToks "limit" ++ [.dotStarL] ++
   litToks "exceeded" ++ [.dotStarL, .grpDigits]⟩

/-- Source `(\d+).*?messages?.*?limit.*?reached` -/
def pMsg3 : RPat :=
  ⟨"(\\d+).*?messages?.*?limit.*?reached",
   [.grpDigits, .dotStarL] ++ litToks "message" ++ [.optChar 's', .dotStarL] ++
   litToks "limit" ++ [.dotStarL] ++ litToks "reached"⟩

/-- Source `RateLimitPatterns.APPROACHING_PATTERNS`. -/
def APPROACHING_PATTERNS : List RPat := [pApp1, pApp2, pApp3, pApp4, pApp5]

/-- Source `RateLimitPatterns.REACHED_PATTERNS`. -/
def REACHED_PATTERNS : List RPat := [pRch1, pRch2, pRch3, pRch4, pRch5, pRch6]

/-- Source `RateLimitPatterns.MESSAGE_LIMIT_PATTERNS`. -/
def MESSAGE_LIMIT_PATTERNS : List RPat := [pMsg1, pMsg2, pMsg3]

end RateLimitPatterns

/-! ### `extract_rate_limit_info` -/

/-- The dictionary returned by `extract_rate_limit_info` on a match. -/
structure RateLimitInfo where
  type : String
  limit_value : Option Nat
  raw_text : String
  pattern_matched : String
  deriving DecidableEq, Repr

/-- Source `int(match.group(1)) if match.group(1).isdigit() else None`,
the total (non-raising) reading. -/
def limitValueOfCap (cap : Option (List Char)) : Option Nat :=
  match cap with
  | some g => if isdigitL g then some (digitsVal g) else none
  | none => none

/-- Build the result dictionary for a successful match. -/
def makeMatchInfo (typ : String) (p : RPat) (text : String)
    (cap : Option (List Char)) : RateLimitInfo :=
  { type := typ
    limit_value := limitValueOfCap cap
    raw_text := pyStrip text
    pattern_matched := p.src }

/-- One `for pattern in ...` loop of `extract_rate_limit_info`: first
pattern whose `re.search` succeeds wins. -/
def checkList (typ : String) (pats : List RPat) (text : String)
    (tl : List Char) : Option RateLimitInfo :=
  pats.findSome? fun p => (reSearch p.toks tl).map (makeMatchInfo typ p text)

/-- Source `RateLimitPatterns.extract_rate_limit_info`: lowercase the text, then
try the approaching, reached and message-limit lists in that order. -/
def extract_rate_limit_info (text : String) : Option RateLimitInfo :=
  let tl := pyLower text
  match checkList "approaching" RateLimitPatterns.APPROACHING_PATTERNS text tl with
  | some r => some r
  | none =>
    match checkList "reached" RateLimitPatterns.REACHED_PATTERNS text tl with
    | some r => some r
    | none => checkList "message_limit" RateLimitPatterns.MESSAGE_LIMIT_PATTERNS text tl

/-! ### Raising model of `extract_rate_limit_info` (for totality)

`extract_rate_limit_infoE` makes the two spots where the Python body could
raise explicit: `match.group(1).isdigit()` would raise `AttributeError` if
the group had not participated in the match, and `int(...)` raises
`ValueError` on a string that is not an integer literal.  The theorem for
the safety claim shows neither can fire. -/

/-- An exception a line of the Python body could raise. -/
inductive PyErr where
  | attributeError
  | valueError
  deriving DecidableEq, Repr

/-- Python `int(...)` on a string: succeeds exactly on digit strings in the
fragment reachable here (the argument always comes from a `(\d+)` group). -/
def pyIntE (g : List Char) : Except PyErr Nat :=
  if isdigitL g then .ok (digitsVal g) else .error .valueError

/-- Source `int(match.group(1)) if match.group(1).isdigit() else None`, with the
raising spots explicit. -/
def limitValueOfCapE (cap : Option (List Char)) : Except PyErr (Option Nat) :=
  match cap with
  | none => .error .attributeError
  | some g => if isdigitL g then (pyIntE g).map some else .ok none

/-- Source `checkList` with the raising spots explicit. -/
def checkListE (typ : String) (pats : List RPat) (text : String)
    (tl : List Char) : Except PyErr (Option RateLimitInfo) :=
  match pats with
  | [] => .ok none
  | p :: ps =>
    match reSearch p.toks tl with
    | some cap =>
      (limitValueOfCapE cap).map fun lv =>
        some { type := typ, limit_value := lv, raw_text := pyStrip text,
               pattern_matched := p.src }
    | none => checkListE typ ps text tl

/-- Source `extract_rate_limit_info` with the raising spots explicit. -/
def extract_rate_limit_infoE (text : String) : Except PyErr (Option RateLimitInfo) :=
  let tl := pyLower text
  match checkListE "approaching" RateLimitPatterns.APPROACHING_PATTERNS text tl with
  | .error e => .error e
  | .ok (some r) => .ok (some r)
  | .ok none =>
    match checkListE "reached" RateLimitPatterns.REACHED_PATTERNS text tl with
    | .error e => .error e
    | .ok (some r) => .ok (some r)
    | .ok none => checkListE "message_limit" RateLimitPatterns.MESSAGE_LIMIT_PATTERNS text tl

/-! ### `SessionMetrics` (in-memory accumulator)

`time.time()` is made an explicit rational parameter `now`; every other
field follows `SessionMetrics.__init__` and its mutation methods. -/

/-- An entry of `SessionMetrics.rate_limit_events` after
`add_rate_limit_event` stamped it. -/
structure StoredEvent where
  info : RateLimitInfo
  timestamp : ℚ
  elapsed_time : ℚ
  deriving DecidableEq

/-- The mutable state of a `SessionMetrics` object. -/
structure SessionMetrics where
  session_id : String
  project_path : String
  start_time : ℚ
  token_usage : List ℤ
  message_count : ℤ
  cost_accumulator : ℚ
  rate_limit_events : List StoredEvent
  peak_token_usage : ℤ
  peak_message_count : ℤ
  deriving DecidableEq

namespace SessionMetrics

/-- Source `SessionMetrics.__init__(session_id, project_path)` at clock time
`start`. -/
def init (session_id project_path : String) (start : ℚ) : SessionMetrics :=
  { session_id := session_id
    project_path := project_path
    start_time := start
    token_usage := []
    message_count := 0
    cost_accumulator := 0
    rate_limit_events := []
    peak_token_usage := 0
    peak_message_count := 0 }

/-- Source `add_token_usage(tokens)`. -/
def add_token_usage (s : SessionMetrics) (tokens : ℤ) : SessionMetrics :=
  { s with token_usage := s.token_usage ++ [tokens]
           peak_token_usage := max s.peak_token_usage tokens }

/-- Source `add_message()`. -/
def add_message (s : SessionMetrics) : SessionMetrics :=
  let mc := s.message_count + 1
  { s with message_count := mc
           peak_message_count := max s.peak_message_count mc }

/-- Source `add_rate_limit_event(event_data)` at clock time `now`. -/
def add_rate_limit_event (s : SessionMetrics) (now : ℚ)
    (event_data : RateLimitInfo) : SessionMetrics :=
  { s with rate_limit_events :=
      s.rate_limit_events ++ [⟨event_data, now, now - s.start_time⟩] }

/-- The dictionary returned by `get_current_metrics()`. -/
structure Metrics where
  session_id : String
  project_path : String
  elapsed_time : ℚ
  total_tokens : ℤ
  peak_token_usage : ℤ
  message_count : ℤ
  peak_message_count : ℤ
  rate_limit_events : ℕ
  cost_estimate : ℚ
  deriving DecidableEq

/-- Source `get_current_metrics()` at clock time `now`: reads fields only, writes
nothing (the Python body contains no assignment). -/
def get_current_metrics (s : SessionMetrics) (now : ℚ) : Metrics :=
  { session_id := s.session_id
    project_path := s.project_path
    elapsed_time := now - s.start_time
    total_tokens := s.token_usage.sum
    peak_token_usage := s.peak_token_usage
    message_count := s.message_count
    peak_message_count := s.peak_message_count
    rate_limit_events := s.rate_limit_events.length
    cost_estimate := s.cost_accumulator }

/-- A call of `get_current_metrics` as a state transformer: it returns the
dictionary and leaves the object untouched. -/
def get_current_metrics_call (s : SessionMetrics) (now : ℚ) :
    Metrics × SessionMetrics :=
  (get_current_metrics s now, s)

end SessionMetrics

/-- One mutation of a `SessionMetrics` object. -/
inductive SMOp where
  | addTokenUsage (tokens : ℤ)
  | addMessage
  | addRateLimitEvent (now : ℚ) (event_data : RateLimitInfo)
  deriving DecidableEq

/-- Apply one mutation. -/
def applySMOp (s : SessionMetrics) : SMOp → SessionMetrics
  | .addTokenUsage t => s.add_token_usage t
  | .addMessage => s.add_message
  | .addRateLimitEvent now e => s.add_rate_limit_event now e

/-- Apply a sequence of mutations in order. -/
def applySMOps (s : SessionMetrics) (ops : List SMOp) : SessionMetrics :=
  ops.foldl applySMOp s

/-- The values passed to `add_token_usage` within a mutation sequence. -/
def tokensOf (ops : List SMOp) : List ℤ :=
  ops.filterMap fun op =>
    match op with
    | .addTokenUsage t => some t
    | _ => none

/-! ### Learning updater: `EnhancedProxyMonitor._store_learned_limit`

`elapsed_time` is a Python float (seconds); it is embedded as `ℚ`.
`int(x)` on a Python float truncates toward zero; `round(x)` rounds half
to even.  Both are defined here so the two can be compared. -/

/-- Python `int()` applied to a (real-valued) float: truncation toward
zero. -/
def pyTrunc (q : ℚ) : ℤ := if 0 ≤ q then ⌊q⌋ else ⌈q⌉

/-- Python `round()` applied to a float: round half to even. -/
def pyRound (q : ℚ) : ℤ :=
  let f := ⌊q⌋
  let r := q - f
  if r < 1/2 then f
  else if 1/2 < r then f + 1
  else if Even f then f else f + 1

/-- Source `confidence = min(session_metrics.get('elapsed_time', 0) / 3600, 1.0)`. -/
def confidence (elapsed : ℚ) : ℚ := min (elapsed / 3600) 1

/-- Which limit is being learned (`limit_type` in the source). -/
inductive LimitKind where
  | token
  | message
  deriving DecidableEq

/-- The `token_limit`/`message_limit` pair of a `plan_limits` row as seen
by `_store_learned_limit` through `get_plan_limit`. -/
structure PlanLimitsPair where
  token_limit : ℤ
  message_limit : ℤ
  deriving DecidableEq

/-- Source `_store_learned_limit`: compute the confidence-weighted value and the
`(token_limit, message_limit)` arguments passed to `update_plan_limit`.
`existing` is `get_plan_limit(plan_type)` (`none` when no row exists; the
source then falls back to `observed_value`, `250` and `19000`). -/
def store_learned_limit (kind : LimitKind) (observed : ℤ) (elapsed : ℚ)
    (existing : Option PlanLimitsPair) : PlanLimitsPair :=
  let existing_value : ℤ :=
    match existing, kind with
    | some r, .token => r.token_limit
    | some r, .message => r.message_limit
    | none, _ => observed
  let conf := confidence elapsed
  let new_value := pyTrunc ((existing_value : ℚ) * (1 - conf) + (observed : ℚ) * conf)
  match kind with
  | .token =>
    { token_limit := new_value
      message_limit := match existing with | some r => r.message_limit | none => 250 }
  | .message =>
    { token_limit := match existing with | some r => r.token_limit | none => 19000
      message_limit := new_value }

/-- The stored-value update as the specification states it, with `round`
in place of the source's `int(...)` (used to compare the two). -/
def spec_new_value (existing observed : ℤ) (elapsed : ℚ) : ℤ :=
  pyRound ((existing : ℚ) * (1 - confidence elapsed) +
           (observed : ℚ) * confidence elapsed)

/-! ### Persistence layer: `EnhancedDatabaseManager`

`_get_connection` executes `PRAGMA foreign_keys = ON`, so the
`FOREIGN KEY (session_id) REFERENCES session_metrics (session_id)` clause
of `rate_limit_events` is enforced on every write.  A rejected insert
raises `sqlite3.Error`, which `add_enhanced_rate_limit_event` catches and
logs, leaving the database unchanged. -/

/-- A row of the `session_metrics` table (`session_id` is the primary
key). -/
structure SessRow where
  session_id : String
  project_path : String
  start_time : String
  end_time : Option String
  total_tokens : ℤ
  peak_token_usage : ℤ
  message_count : ℤ
  peak_message_count : ℤ
  cost_estimate : ℚ
  rate_limit_events_count : ℤ
  status : String
  metadata : String
  deriving DecidableEq

/-- A row of the `rate_limit_events` table (the autoincrement `id` column
is the list position). -/
structure EventRow where
  timestamp : String
  event_type : String
  session_id : String
  elapsed_time : ℚ
  limit_value : Option ℤ
  raw_message : Option String
  pattern_matched : Option String
  project_path : Option String
  confidence_score : ℚ
  deriving DecidableEq

/-- The two tables of the enhanced database that the rate-limit pipeline
writes. -/
structure EnhancedDb where
  session_metrics : List SessRow
  rate_limit_events : List EventRow
  deriving DecidableEq

/-- The freshly created (empty) database. -/
def EnhancedDb.empty : EnhancedDb := ⟨[], []⟩

/-- Does a `session_metrics` row with this `session_id` exist? -/
def EnhancedDb.hasSession (db : EnhancedDb) (sid : String) : Bool :=
  db.session_metrics.any fun r => r.session_id == sid

/-- Source `create_or_update_session_metrics`: `INSERT OR REPLACE` keyed on the
primary key `session_id`. -/
def create_or_update_session_metrics (db : EnhancedDb) (row : SessRow) :
    EnhancedDb :=
  { db with session_metrics :=
      db.session_metrics.filter (fun r => r.session_id != row.session_id) ++ [row] }

/-- Source `add_enhanced_rate_limit_event`: plain `INSERT` into
`rate_limit_events`.  With `PRAGMA foreign_keys = ON` the insert fails when
no `session_metrics` row carries the event's `session_id`; the raised
`sqlite3.Error` is caught and logged, so the database is left unchanged. -/
def add_enhanced_rate_limit_event (db : EnhancedDb) (e : EventRow) :
    EnhancedDb :=
  if db.hasSession e.session_id then
    { db with rate_limit_events := db.rate_limit_events ++ [e] }
  else
    db

/-- One write issued by the pipeline against the two tables. -/
inductive DbOp where
  | upsertSession (row : SessRow)
  | addEvent (e : EventRow)
  deriving DecidableEq

/-- Apply one write. -/
def applyDbOp (db : EnhancedDb) : DbOp → EnhancedDb
  | .upsertSession row => create_or_update_session_metrics db row
  | .addEvent e => add_enhanced_rate_limit_event db e

/-- Apply a sequence of writes in order. -/
def applyDbOps (db : EnhancedDb) (ops : List DbOp) : EnhancedDb :=
  ops.foldl applyDbOp db

/-- The foreign-key invariant of §3: every persisted rate-limit event
references an existing `session_metrics` row. -/
def fkInvariant (db : EnhancedDb) : Prop :=
  ∀ e ∈ db.rate_limit_events,
    ∃ s ∈ db.session_metrics, s.session_id = e.session_id

/-! ### `update_enhanced_plan_limit` failure semantics -/

/-- An `sqlite3.Error`. -/
inductive SqlErr where
  | sqliteError (msg : String)
  deriving DecidableEq

/-- A row of the `plan_limits` table (`plan_name` is the primary key). -/
structure PlanRow where
  plan_name : String
  token_limit : ℤ
  message_limit : ℤ
  last_updated : String
  confidence_score : ℚ
  sample_size : ℤ
  variance : ℚ
  deriving DecidableEq

/-- Source `INSERT OR REPLACE INTO plan_limits` keyed on `plan_name`. -/
def upsertPlanRow (db : List PlanRow) (r : PlanRow) : List PlanRow :=
  db.filter (fun x => x.plan_name != r.plan_name) ++ [r]

/-- The body of the `try` block of `update_enhanced_plan_limit`: the write
either commits or raises `sqlite3.Error` (`err` says which, standing for
the environment). -/
def update_plan_limit_attempt (err : Option SqlErr) (db : List PlanRow)
    (r : PlanRow) : Except SqlErr (List PlanRow) :=
  match err with
  | some e => .error e
  | none => .ok (upsertPlanRow db r)

/-- Source `update_enhanced_plan_limit` (and the identical
`DatabaseManager.update_plan_limit`): one attempt; on `sqlite3.Error` the
exception is logged and swallowed and the method returns normally with the
database unchanged.  The second component counts the attempts made. -/
def update_enhanced_plan_limit (err : Option SqlErr) (db : List PlanRow)
    (r : PlanRow) : List PlanRow × ℕ :=
  match update_plan_limit_attempt err db r with
  | .ok db2 => (db2, 1)
  | .error _ => (db, 1)

/-! ### `SessionContext._generate_isolation_key` -/

/-- Decimal digit character. -/
def digitChar (d : ℕ) : Char := Char.ofNat (48 + d)

/-- Source `str(n)` for a nonnegative Python int: decimal notation. -/
def pyStrNat (n : ℕ) : List Char :=
  if n < 10 then [digitChar n]
  else pyStrNat (n / 10) ++ [digitChar (n % 10)]
termination_by n
decreasing_by omega

/-- Source `":".join components` at the character level. -/
def joinColon : List (List Char) → List Char
  | [] => []
  | [x] => x
  | x :: xs => x ++ ':' :: joinColon xs

/-- The five fields of a `SessionContext` that enter the isolation key. -/
structure SessionContextKey where
  terminal_device : String
  ssh_connection : Option String
  user : String
  hostname : String
  process_id : ℕ
  deriving DecidableEq

/-- Source `_generate_isolation_key`:
`":".join([terminal_device, ssh_connection or "local", user, hostname,
str(process_id)])`. -/
def generate_isolation_key (c : SessionContextKey) : String :=
  String.mk (joinColon
    [c.terminal_device.data, (c.ssh_connection.getD "local").data,
     c.user.data, c.hostname.data, pyStrNat c.process_id])

/-! ## Helper lemmas -/

theorem pyTrunc_intCast (n : ℤ) : pyTrunc (n : ℚ) = n := by
  unfold pyTrunc
  split <;> simp

theorem confidence_zero : confidence 0 = 0 := by
  unfold confidence
  norm_num

theorem confidence_full : confidence 3600 = 1 := by
  unfold confidence
  norm_num

theorem confidence_nonneg {elapsed : ℚ} (h : 0 ≤ elapsed) :
    0 ≤ confidence elapsed := by
  unfold confidence
  have : (0:ℚ) ≤ elapsed / 3600 := by positivity
  exact le_min this (by norm_num)

theorem confidence_le_one (elapsed : ℚ) : confidence elapsed ≤ 1 :=
  min_le_right _ _

/-! ## C4 -/

/-- C4: at the confidence boundaries of the learning updater, a 3600-second
session with existing value 20000 and observed 19000 stores exactly 19000
(confidence 1, full replacement), and a zero-duration session stores the
existing value unchanged for any observed value (confidence 0). -/
theorem learning_confidence_boundaries :
    confidence 3600 = 1 ∧ confidence 0 = 0 ∧
    (∀ m : ℤ,
      (store_learned_limit .token 19000 3600 (some ⟨20000, m⟩)).token_limit = 19000) ∧
    (∀ (r : PlanLimitsPair) (observed : ℤ),
      (store_learned_limit .token observed 0 (some r)).token_limit = r.token_limit ∧
      (store_learned_limit .message observed 0 (some r)).message_limit = r.message_limit) := by
  refine ⟨confidence_full, confidence_zero, ?_, ?_⟩
  · intro m
    unfold store_learned_limit
    rw [confidence_full]
    norm_num [pyTrunc]
  · intro r observed
    constructor <;>
    · unfold store_learned_limit
      rw [confidence_zero]
      norm_num [pyTrunc_intCast]

/-! ## C1 -/

/-- C1, counterexample: for existing value 0, observed value 3 and a
1800-second session (confidence 1/2) the code stores
`int(0 * 0.5 + 3 * 0.5) = int(1.5) = 1`, while the claimed formula
`round(1.5)` yields 2. -/
theorem learning_round_counterexample :
    (store_learned_limit .token 3 1800 (some ⟨0, 250⟩)).token_limit = 1 ∧
    spec_new_value 0 3 1800 = 2 ∧ (1 : ℤ) ≠ 2 := by
  refine ⟨?_, ?_, by decide⟩
  · unfold store_learned_limit confidence pyTrunc
    norm_num
  · unfold spec_new_value confidence pyRound
    norm_num

/-- C1, amended: the stored value is the confidence-weighted average
truncated toward zero by Python `int(...)` (not `round(...)`); for
nonnegative inputs this is the floor of the weighted average. -/
theorem learning_update_truncates (r : PlanLimitsPair) (observed : ℤ)
    (elapsed : ℚ) :
    ((store_learned_limit .token observed elapsed (some r)).token_limit =
       pyTrunc ((r.token_limit : ℚ) * (1 - confidence elapsed) +
                (observed : ℚ) * confidence elapsed) ∧
     (store_learned_limit .message observed elapsed (some r)).message_limit =
       pyTrunc ((r.message_limit : ℚ) * (1 - confidence elapsed) +
                (observed : ℚ) * confidence elapsed)) ∧
    (0 ≤ elapsed → 0 ≤ r.token_limit → 0 ≤ observed →
      (store_learned_limit .token observed elapsed (some r)).token_limit =
        ⌊(r.token_limit : ℚ) * (1 - confidence elapsed) +
         (observed : ℚ) * confidence elapsed⌋) := by
  constructor
  · constructor <;> rfl
  · intro hel htok hobs
    have hc0 : 0 ≤ confidence elapsed := confidence_nonneg hel
    have hc1 : confidence elapsed ≤ 1 := confidence_le_one elapsed
    have havg : 0 ≤ (r.token_limit : ℚ) * (1 - confidence elapsed) +
        (observed : ℚ) * confidence elapsed := by
      have h1 : (0:ℚ) ≤ (r.token_limit : ℚ) := by exact_mod_cast htok
      have h2 : (0:ℚ) ≤ (observed : ℚ) := by exact_mod_cast hobs
      have h3 : (0:ℚ) ≤ 1 - confidence elapsed := by linarith
      positivity
    show pyTrunc _ = _
    unfold pyTrunc
    rw [if_pos havg]

/-- C1, witness for the amended theorem: at existing value 0, observed 3,
elapsed 1800 the stored value is the floor of the weighted average. -/
theorem learning_update_truncates_witness :
    (store_learned_limit .token 3 1800 (some ⟨0, 250⟩)).token_limit =
      ⌊(((0:ℤ) : ℚ)) * (1 - confidence 1800) + (((3:ℤ) : ℚ)) * confidence 1800⌋ :=
  (learning_update_truncates ⟨0, 250⟩ 3 1800).2 (by norm_num) (by norm_num)
    (by norm_num)

/-! ## C7 and C10: `SessionMetrics` accumulators -/

theorem applySMOps_token_usage (ops : List SMOp) :
    ∀ s : SessionMetrics,
      (applySMOps s ops).token_usage = s.token_usage ++ tokensOf ops := by
  induction ops with
  | nil => intro s; simp [applySMOps, tokensOf]
  | cons op ops ih =>
    intro s
    cases op <;>
      simp [applySMOps, tokensOf, List.foldl_cons, applySMOp,
        SessionMetrics.add_token_usage, SessionMetrics.add_message,
        SessionMetrics.add_rate_limit_event] <;>
      simp [applySMOps, tokensOf] at ih <;>
      simp [ih]

theorem applySMOps_peak_token (ops : List SMOp) :
    ∀ s : SessionMetrics,
      (applySMOps s ops).peak_token_usage =
        (tokensOf ops).foldl max s.peak_token_usage := by
  induction ops with
  | nil => intro s; simp [applySMOps, tokensOf]
  | cons op ops ih =>
    intro s
    cases op <;>
      simp [applySMOps, tokensOf, List.foldl_cons, applySMOp,
        SessionMetrics.add_token_usage, SessionMetrics.add_message,
        SessionMetrics.add_rate_limit_event] <;>
      simp [applySMOps, tokensOf] at ih <;>
      simp [ih]

theorem applySMOps_message_counts (ops : List SMOp) :
    ∀ s : SessionMetrics,
      s.peak_message_count = s.message_count →
      (applySMOps s ops).peak_message_count = (applySMOps s ops).message_count := by
  induction ops with
  | nil => intro s h; simpa [applySMOps] using h
  | cons op ops ih =>
    intro s h
    cases op with
    | addTokenUsage t =>
      exact ih _ (by simpa [applySMOp, SessionMetrics.add_token_usage] using h)
    | addMessage =>
      refine ih _ ?_
      simp [applySMOp, SessionMetrics.add_message, h]
    | addRateLimitEvent now e =>
      exact ih _ (by simpa [applySMOp, SessionMetrics.add_rate_limit_event] using h)

/-- C7: after any mutation sequence on a freshly constructed
`SessionMetrics`, `get_current_metrics()["total_tokens"]` equals the sum of
every value passed to `add_token_usage`; and a `get_current_metrics` call
leaves the object unchanged and returns the same dictionary when repeated
at the same clock reading with no intervening mutation. -/
theorem total_tokens_is_sum (sid proj : String) (start : ℚ) (ops : List SMOp)
    (now : ℚ) :
    ((applySMOps (SessionMetrics.init sid proj start) ops).get_current_metrics
        now).total_tokens = (tokensOf ops).sum ∧
    (∀ s : SessionMetrics,
      (s.get_current_metrics_call now).2 = s ∧
      ((s.get_current_metrics_call now).2.get_current_metrics_call now).1 =
        (s.get_current_metrics_call now).1) := by
  constructor
  · show (applySMOps (SessionMetrics.init sid proj start) ops).token_usage.sum = _
    rw [applySMOps_token_usage]
    simp [SessionMetrics.init]
  · intro s
    exact ⟨rfl, rfl⟩

/-- C10, counterexample: `add_token_usage(-1)` on a fresh tracker leaves
`peak_token_usage` at 0 (the peak starts at 0 and `max` keeps it there),
while the maximum single value ever passed is -1. -/
theorem peak_negative_counterexample :
    (applySMOps (SessionMetrics.init "s" "p" 0)
        [.addTokenUsage (-1)]).peak_token_usage = 0 ∧
    (tokensOf [SMOp.addTokenUsage (-1)]).max?.getD 0 = -1 ∧
    (0 : ℤ) ≠ -1 := by
  refine ⟨?_, by decide, by decide⟩
  simp [applySMOps, applySMOp, SessionMetrics.init, SessionMetrics.add_token_usage,
    tokensOf]

/-- C10, amended: `peak_token_usage` is the fold of `max` over the values
passed to `add_token_usage` starting from 0 — the maximum single value
clamped below at 0 — and `peak_message_count` always equals
`message_count`. -/
theorem peak_fields_characterization (sid proj : String) (start : ℚ)
    (ops : List SMOp) :
    (applySMOps (SessionMetrics.init sid proj start) ops).peak_token_usage =
      (tokensOf ops).foldl max 0 ∧
    (applySMOps (SessionMetrics.init sid proj start) ops).peak_message_count =
      (applySMOps (SessionMetrics.init sid proj start) ops).message_count := by
  constructor
  · rw [applySMOps_peak_token]
    simp [SessionMetrics.init]
  · exact applySMOps_message_counts ops _ rfl

/-! ## C9: isolation-key machinery -/

theorem digitsVal_append_singleton (xs : List Char) (c : Char) :
    digitsVal (xs ++ [c]) = 10 * digitsVal xs + (c.toNat - 48) := by
  simp [digitsVal, List.foldl_append]

theorem digitChar_toNat {d : ℕ} (h : d < 10) : (digitChar d).toNat = 48 + d := by
  interval_cases d <;> rfl

theorem digitsVal_pyStrNat (n : ℕ) : digitsVal (pyStrNat n) = n := by
  induction n using Nat.strong_induction_on with
  | _ n ih =>
    unfold pyStrNat
    split
    · rename_i h
      simp [digitsVal, digitChar_toNat h]
    · rename_i h
      rw [digitsVal_append_singleton, ih (n / 10) (by omega),
        digitChar_toNat (Nat.mod_lt n (by omega))]
      omega

theorem pyStrNat_injective {m n : ℕ} (h : pyStrNat m = pyStrNat n) : m = n := by
  have hm := digitsVal_pyStrNat m
  have hn := digitsVal_pyStrNat n
  rw [← hm, ← hn, h]

theorem joinColon_two_inj :
    ∀ (u1 : List Char) (v1 : List Char) (u2 : List Char) (v2 : List Char),
      ':' ∉ u1 → ':' ∉ u2 →
      u1 ++ ':' :: v1 = u2 ++ ':' :: v2 → u1 = u2 ∧ v1 = v2 := by
  intro u1
  induction u1 with
  | nil =>
    intro v1 u2 v2 _ hu2 h
    cases u2 with
    | nil => simpa using h
    | cons y u2 =>
      simp only [List.nil_append, List.cons_append, List.cons.injEq] at h
      rw [← h.1] at hu2
      exact absurd (List.mem_cons_self ':' u2) hu2
  | cons x u1 ih =>
    intro v1 u2 v2 hu1 hu2 h
    cases u2 with
    | nil =>
      simp only [List.cons_append, List.nil_append, List.cons.injEq] at h
      rw [h.1] at hu1
      exact absurd (List.mem_cons_self ':' u1) hu1
    | cons y u2 =>
      simp only [List.cons_append, List.cons.injEq] at h
      obtain ⟨hxy, hrest⟩ := h
      have := ih v1 u2 v2 (fun hm => hu1 (List.mem_cons_of_mem x hm))
        (fun hm => hu2 (List.mem_cons_of_mem y hm)) hrest
      exact ⟨by rw [hxy, this.1], this.2⟩

/-- C9, counterexample: two contexts whose five components differ produce
the same isolation key, because `":".join` is not injective when a
component itself contains `:` — as every non-local `ssh_connection` value
produced by `_detect_ssh_connection` does (`"ssh_client:..."`). -/
theorem isolation_key_collision :
    generate_isolation_key ⟨"tty1", some "ssh_client:1.2.3.4", "u", "h", 1⟩ =
      generate_isolation_key ⟨"tty1:ssh_client", some "1.2.3.4", "u", "h", 1⟩ ∧
    ("tty1" : String) ≠ "tty1:ssh_client" := by
  constructor
  · rfl
  · decide

/-- C9, amended: when none of the five joined components contains the `:`
separator, equal isolation keys force component-wise equality (for the ssh
component, equality of `ssh_connection or "local"`); components containing
`:`, as real ssh connection strings do, can collide. -/
theorem isolation_key_injective_when_colon_free (c1 c2 : SessionContextKey)
    (h1t : ':' ∉ c1.terminal_device.data)
    (h1s : ':' ∉ (c1.ssh_connection.getD "local").data)
    (h1u : ':' ∉ c1.user.data) (h1h : ':' ∉ c1.hostname.data)
    (h2t : ':' ∉ c2.terminal_device.data)
    (h2s : ':' ∉ (c2.ssh_connection.getD "local").data)
    (h2u : ':' ∉ c2.user.data) (h2h : ':' ∉ c2.hostname.data)
    (hkey : generate_isolation_key c1 = generate_isolation_key c2) :
    c1.terminal_device = c2.terminal_device ∧
    c1.ssh_connection.getD "local" = c2.ssh_connection.getD "local" ∧
    c1.user = c2.user ∧ c1.hostname = c2.hostname ∧
    c1.process_id = c2.process_id := by
  unfold generate_isolation_key at hkey
  rw [String.ext_iff] at hkey
  simp only [joinColon] at hkey
  obtain ⟨e1, hkey⟩ := joinColon_two_inj _ _ _ _ h1t h2t hkey
  obtain ⟨e2, hkey⟩ := joinColon_two_inj _ _ _ _ h1s h2s hkey
  obtain ⟨e3, hkey⟩ := joinColon_two_inj _ _ _ _ h1u h2u hkey
  obtain ⟨e4, hkey⟩ := joinColon_two_inj _ _ _ _ h1h h2h hkey
  exact ⟨String.ext e1, String.ext e2, String.ext e3, String.ext e4,
    pyStrNat_injective hkey⟩

/-- C9, witness for the amended theorem: two colon-free contexts (one with
`ssh_connection = None`, one with the literal string `"local"`) share a key
and indeed agree on all five joined components. -/
theorem isolation_key_injective_when_colon_free_witness :
    let c1 : SessionContextKey := ⟨"tty1", none, "u", "h", 42⟩
    let c2 : SessionContextKey := ⟨"tty1", some "local", "u", "h", 42⟩
    c1.terminal_device = c2.terminal_device ∧
    c1.ssh_connection.getD "local" = c2.ssh_connection.getD "local" ∧
    c1.user = c2.user ∧ c1.hostname = c2.hostname ∧
    c1.process_id = c2.process_id :=
  isolation_key_injective_when_colon_free
    ⟨"tty1", none, "u", "h", 42⟩ ⟨"tty1", some "local", "u", "h", 42⟩
    (by decide) (by decide) (by decide) (by decide)
    (by decide) (by decide) (by decide) (by decide) rfl

/-! ## C5: foreign-key invariant of `rate_limit_events` -/

theorem fkInvariant_empty : fkInvariant EnhancedDb.empty := by
  intro e he
  simp [EnhancedDb.empty] at he

theorem fkInvariant_step (db : EnhancedDb) (op : DbOp)
    (h : fkInvariant db) : fkInvariant (applyDbOp db op) := by
  cases op with
  | upsertSession row =>
    intro e he
    simp only [applyDbOp, create_or_update_session_metrics] at he ⊢
    obtain ⟨s, hs, hsid⟩ := h e he
    by_cases hcase : s.session_id = row.session_id
    · exact ⟨row, by simp, by rw [← hcase, hsid]⟩
    · refine ⟨s, ?_, hsid⟩
      simp only [List.mem_append, List.mem_filter]
      exact Or.inl ⟨hs, by simpa using hcase⟩
  | addEvent e0 =>
    intro e he
    simp only [applyDbOp, add_enhanced_rate_limit_event] at he ⊢
    by_cases hcase : db.hasSession e0.session_id
    · rw [if_pos hcase] at he
      rw [if_pos hcase]
      simp only [List.mem_append, List.mem_singleton] at he
      cases he with
      | inl hin => exact h e hin
      | inr heq =>
        subst heq
        have hex : ∃ s ∈ db.session_metrics, s.session_id = e.session_id := by
          simpa [EnhancedDb.hasSession] using hcase
        exact hex
    · rw [if_neg hcase] at he
      rw [if_neg hcase]
      exact h e he

theorem fkInvariant_reachable (ops : List DbOp) :
    ∀ db : EnhancedDb, fkInvariant db → fkInvariant (applyDbOps db ops) := by
  induction ops with
  | nil => intro db h; exact h
  | cons op ops ih =>
    intro db h
    exact ih _ (fkInvariant_step db op h)

/-- C5: every persisted rate-limit event references an existing
`session_metrics` row (the foreign key, enforced because `_get_connection`
turns `PRAGMA foreign_keys` on), and inserting an event whose `session_id`
has no session row leaves the database unchanged — no violating row is
produced, the failed insert's `sqlite3.Error` being caught and logged. -/
theorem rate_limit_event_fk (ops : List DbOp) :
    fkInvariant (applyDbOps EnhancedDb.empty ops) ∧
    ∀ e : EventRow,
      (applyDbOps EnhancedDb.empty ops).hasSession e.session_id = false →
      add_enhanced_rate_limit_event (applyDbOps EnhancedDb.empty ops) e =
        applyDbOps EnhancedDb.empty ops := by
  constructor
  · exact fkInvariant_reachable ops EnhancedDb.empty fkInvariant_empty
  · intro e he
    unfold add_enhanced_rate_limit_event
    rw [he]
    simp

/-- A `session_metrics` row used by the C5 witness. -/
def sampleSessRow : SessRow :=
  ⟨"sess-1", "/home/u/proj", "2025-01-26T00:00:00", none, 0, 0, 0, 0, 0, 0,
   "active", "\x7b\x7d"⟩

/-- A rate-limit event row whose `session_id` has no session row. -/
def sampleOrphanEvent : EventRow :=
  ⟨"2025-01-26T00:00:01", "reached", "sess-unknown", 10, some 19000, none,
   none, none, 1⟩

/-- C5, witness: after registering only `"sess-1"`, inserting an event for
`"sess-unknown"` leaves the database unchanged. -/
theorem rate_limit_event_fk_witness :
    add_enhanced_rate_limit_event
        (applyDbOps EnhancedDb.empty [DbOp.upsertSession sampleSessRow])
        sampleOrphanEvent =
      applyDbOps EnhancedDb.empty [DbOp.upsertSession sampleSessRow] :=
  (rate_limit_event_fk [DbOp.upsertSession sampleSessRow]).2 sampleOrphanEvent
    (by decide)

/-! ## C8: database errors during plan-limit updates are swallowed -/

/-- C8: `update_enhanced_plan_limit` (and the identical deprecated
`update_plan_limit`) makes exactly one attempt; when that attempt raises an
`sqlite3.Error` the method still returns normally and the stored plan
limits are unchanged, so the caller proceeds with its in-memory learning
state untouched. -/
theorem plan_limit_update_swallows_errors (err : Option SqlErr)
    (db : List PlanRow) (r : PlanRow) :
    (update_enhanced_plan_limit err db r).2 = 1 ∧
    (∀ e : SqlErr, err = some e →
      update_plan_limit_attempt err db r = .error e ∧
      (update_enhanced_plan_limit err db r).1 = db) ∧
    (err = none →
      (update_enhanced_plan_limit err db r).1 = upsertPlanRow db r) := by
  refine ⟨?_, ?_, ?_⟩
  · cases err <;> rfl
  · intro e he
    subst he
    exact ⟨rfl, rfl⟩
  · intro he
    subst he
    rfl

/-- C8, witness: a concrete failing write returns normally with the
one-row database unchanged after a single attempt. -/
theorem plan_limit_update_swallows_errors_witness :
    (update_enhanced_plan_limit (some (.sqliteError "disk I\x2fO error"))
        [⟨"pro", 19000, 250, "t0", 1, 1, 0⟩]
        ⟨"pro", 18000, 250, "t1", 1, 1, 0⟩).2 = 1 ∧
    (update_enhanced_plan_limit (some (.sqliteError "disk I\x2fO error"))
        [⟨"pro", 19000, 250, "t0", 1, 1, 0⟩]
        ⟨"pro", 18000, 250, "t1", 1, 1, 0⟩).1 =
      [⟨"pro", 19000, 250, "t0", 1, 1, 0⟩] := by
  have h := plan_limit_update_swallows_errors
    (some (.sqliteError "disk I\x2fO error"))
    [⟨"pro", 19000, 250, "t0", 1, 1, 0⟩] ⟨"pro", 18000, 250, "t1", 1, 1, 0⟩
  exact ⟨h.1, (h.2.1 _ rfl).2⟩

/-! ## Regex matcher lemmas (for C2, C3, C6) -/

theorem tryIdx_eq_some {f : List Char → Option (Option (List Char))}
    {s : List Char} {idxs : List Nat} {r : Option (List Char)}
    (h : tryIdx f s idxs = some r) : ∃ i ∈ idxs, f (s.drop i) = some r := by
  induction idxs with
  | nil => simp [tryIdx] at h
  | cons i is ih =>
    cases hf : f (s.drop i) with
    | some r2 =>
      rw [tryIdx, hf] at h
      exact ⟨i, List.mem_cons_self i is, by rw [hf]; exact h⟩
    | none =>
      rw [tryIdx, hf] at h
      obtain ⟨j, hj, hfj⟩ := ih h
      exact ⟨j, List.mem_cons_of_mem i hj, hfj⟩

theorem tryDigitIdx_eq_some {f : List Char → Option (Option (List Char))}
    {s : List Char} {idxs : List Nat} {r : Option (List Char)}
    (h : tryDigitIdx f s idxs = some r) :
    ∃ i ∈ idxs, r = some (s.take i) ∧ ∃ r2, f (s.drop i) = some r2 := by
  induction idxs with
  | nil => simp [tryDigitIdx] at h
  | cons i is ih =>
    cases hf : f (s.drop i) with
    | some r2 =>
      rw [tryDigitIdx, hf] at h
      have h' : some (some (s.take i)) = some r := h
      exact ⟨i, List.mem_cons_self i is, (Option.some.inj h').symm, r2, hf⟩
    | none =>
      rw [tryDigitIdx, hf] at h
      obtain ⟨j, hj, hr, hfj⟩ := ih h
      exact ⟨j, List.mem_cons_of_mem i hj, hr, hfj⟩

theorem all_take_of_le_takeWhile {p : Char → Bool} :
    ∀ (s : List Char) (i : Nat), i ≤ (s.takeWhile p).length →
      ∀ c ∈ s.take i, p c = true := by
  intro s
  induction s with
  | nil => intro i _ c hc; simp at hc
  | cons x xs ih =>
    intro i hi c hc
    cases hpx : p x with
    | false =>
      rw [List.takeWhile_cons_of_neg (by simp [hpx])] at hi
      simp only [List.length_nil, Nat.le_zero] at hi
      subst hi
      simp at hc
    | true =>
      rw [List.takeWhile_cons_of_pos hpx] at hi
      cases i with
      | zero => simp at hc
      | succ j =>
        rw [List.take_succ_cons] at hc
        rcases List.mem_cons.mp hc with hcx | hcm
        · rw [hcx]; exact hpx
        · exact ih j (by simpa using hi) c hcm

theorem length_takeWhile_le_self {p : Char → Bool} :
    ∀ s : List Char, (s.takeWhile p).length ≤ s.length := by
  intro s
  induction s with
  | nil => simp
  | cons x xs ih =>
    cases hpx : p x with
    | false => simp [List.takeWhile_cons, hpx]
    | true => simp [List.takeWhile_cons_of_pos hpx]; omega

theorem mFrom_grpDigits_capture :
    ∀ (toks : List RTok) (s : List Char) (r : Option (List Char)),
      RTok.grpDigits ∈ toks → mFrom toks s = some r →
      ∃ g, r = some g ∧ isdigitL g = true := by
  intro toks
  induction toks with
  | nil => intro s r hmem; simp at hmem
  | cons t ts ih =>
    intro s r hmem hm
    cases t with
    | lit c =>
      have hmem' : RTok.grpDigits ∈ ts := by
        rcases List.mem_cons.mp hmem with h | h
        · exact absurd h (by simp)
        · exact h
      cases s with
      | nil => simp [mFrom] at hm
      | cons x xs =>
        rw [mFrom] at hm
        by_cases hx : x = c
        · rw [if_pos hx] at hm
          exact ih xs r hmem' hm
        · rw [if_neg hx] at hm
          exact absurd hm (by simp)
    | optChar c =>
      have hmem' : RTok.grpDigits ∈ ts := by
        rcases List.mem_cons.mp hmem with h | h
        · exact absurd h (by simp)
        · exact h
      cases s with
      | nil =>
        rw [mFrom] at hm
        exact ih [] r hmem' hm
      | cons x xs =>
        rw [mFrom] at hm
        by_cases hx : x = c
        · rw [if_pos hx] at hm
          cases hinner : mFrom ts xs with
          | some r2 =>
            rw [hinner] at hm
            cases hm
            exact ih xs r hmem' hinner
          | none =>
            rw [hinner] at hm
            exact ih (x :: xs) r hmem' hm
        · rw [if_neg hx] at hm
          exact ih (x :: xs) r hmem' hm
    | dotStarG =>
      have hmem' : RTok.grpDigits ∈ ts := by
        rcases List.mem_cons.mp hmem with h | h
        · exact absurd h (by simp)
        · exact h
      rw [mFrom] at hm
      obtain ⟨i, _, hfi⟩ := tryIdx_eq_some hm
      exact ih (s.drop i) r hmem' hfi
    | dotStarL =>
      have hmem' : RTok.grpDigits ∈ ts := by
        rcases List.mem_cons.mp hmem with h | h
        · exact absurd h (by simp)
        · exact h
      rw [mFrom] at hm
      obtain ⟨i, _, hfi⟩ := tryIdx_eq_some hm
      exact ih (s.drop i) r hmem' hfi
    | wsStar =>
      have hmem' : RTok.grpDigits ∈ ts := by
        rcases List.mem_cons.mp hmem with h | h
        · exact absurd h (by simp)
        · exact h
      rw [mFrom] at hm
      obtain ⟨i, _, hfi⟩ := tryIdx_eq_some hm
      exact ih (s.drop i) r hmem' hfi
    | grpDigits =>
      rw [mFrom] at hm
      obtain ⟨i, himem, hr, _⟩ := tryDigitIdx_eq_some hm
      rw [List.mem_reverse] at himem
      rw [List.mem_range'] at himem
      obtain ⟨j, hj, hij⟩ := himem
      have h1 : 1 ≤ i := by omega
      have h2 : i ≤ (s.takeWhile isDigitChar).length := by omega
      refine ⟨s.take i, hr, ?_⟩
      have hlen : (s.take i).length = i := by
        rw [List.length_take]
        have := @length_takeWhile_le_self isDigitChar s
        omega
      unfold isdigitL
      have hne : ¬ (s.take i).isEmpty := by
        rw [List.isEmpty_iff]
        intro hcontra
        rw [hcontra] at hlen
        simp at hlen
        omega
      rw [Bool.and_eq_true, Bool.not_eq_true']
      constructor
      · simpa using hne
      · rw [List.all_eq_true]
        exact all_take_of_le_takeWhile s i h2

theorem reSearch_grpDigits_capture (toks : List RTok) :
    ∀ (s : List Char) (r : Option (List Char)),
      RTok.grpDigits ∈ toks → reSearch toks s = some r →
      ∃ g, r = some g ∧ isdigitL g = true := by
  intro s
  induction s with
  | nil =>
    intro r hmem h
    rw [reSearch] at h
    cases hmf : mFrom toks [] with
    | some r2 =>
      rw [hmf] at h
      cases h
      exact mFrom_grpDigits_capture toks [] _ hmem hmf
    | none => rw [hmf] at h; exact absurd h (by simp)
  | cons x xs ih =>
    intro r hmem h
    rw [reSearch] at h
    cases hmf : mFrom toks (x :: xs) with
    | some r2 =>
      rw [hmf] at h
      cases h
      exact mFrom_grpDigits_capture toks (x :: xs) _ hmem hmf
    | none =>
      rw [hmf] at h
      exact ih r hmem h

/-- Every pattern of the three lists contains the `(\d+)` capture group. -/
theorem all_patterns_have_group :
    ∀ p ∈ RateLimitPatterns.APPROACHING_PATTERNS ++
          RateLimitPatterns.REACHED_PATTERNS ++
          RateLimitPatterns.MESSAGE_LIMIT_PATTERNS,
      RTok.grpDigits ∈ p.toks := by decide

theorem checkList_eq_some {typ : String} {pats : List RPat} {text : String}
    {tl : List Char} {r : RateLimitInfo}
    (h : checkList typ pats text tl = some r) :
    ∃ p ∈ pats, ∃ cap, reSearch p.toks tl = some cap ∧
      r = makeMatchInfo typ p text cap := by
  unfold checkList at h
  obtain ⟨p, hp, hf⟩ := List.exists_of_findSome?_eq_some h
  cases hsr : reSearch p.toks tl with
  | none => rw [hsr] at hf; simp at hf
  | some cap =>
    rw [hsr] at hf
    simp only [Option.map_some'] at hf
    exact ⟨p, hp, cap, hsr, (Option.some.inj hf).symm⟩

theorem checkList_capture {typ : String} {pats : List RPat} {text : String}
    {tl : List Char} {r : RateLimitInfo}
    (hall : ∀ p ∈ pats, RTok.grpDigits ∈ p.toks)
    (h : checkList typ pats text tl = some r) :
    r.type = typ ∧
    ∃ g, isdigitL g = true ∧ r.limit_value = some (digitsVal g) ∧
      ∃ p ∈ pats, reSearch p.toks tl = some (some g) ∧
        r.pattern_matched = p.src := by
  obtain ⟨p, hp, cap, hsr, hr⟩ := checkList_eq_some h
  obtain ⟨g, hg, hdig⟩ := reSearch_grpDigits_capture p.toks tl cap (hall p hp) hsr
  subst hg
  subst hr
  refine ⟨rfl, g, hdig, ?_, p, hp, hsr, rfl⟩
  show limitValueOfCap (some g) = some (digitsVal g)
  simp [limitValueOfCap, hdig]

theorem checkList_ne_none {typ : String} {pats : List RPat} {text : String}
    {tl : List Char}
    (hex : ∃ p ∈ pats, reSearch p.toks tl ≠ none) :
    checkList typ pats text tl ≠ none := by
  unfold checkList
  rw [Ne, List.findSome?_eq_none_iff]
  push_neg
  obtain ⟨p, hp, hs⟩ := hex
  refine ⟨p, hp, ?_⟩
  cases hsr : reSearch p.toks tl with
  | none => exact absurd hsr hs
  | some cap => simp [hsr]

/-! ## C2 -/

/-- C2: if any approaching-list pattern matches the (lowercased) line, the
extractor's verdict comes entirely from the approaching scan — the first
list checked — and has type `"approaching"`, never `"reached"`, regardless
of whether some reached-list pattern also matches the line. -/
theorem approaching_priority (text : String)
    (hex : ∃ p ∈ RateLimitPatterns.APPROACHING_PATTERNS,
      reSearch p.toks (pyLower text) ≠ none) :
    ∃ r, extract_rate_limit_info text = some r ∧
      extract_rate_limit_info text =
        checkList "approaching" RateLimitPatterns.APPROACHING_PATTERNS text
          (pyLower text) ∧
      r.type = "approaching" ∧ r.type ≠ "reached" := by
  have hne := @checkList_ne_none "approaching"
    RateLimitPatterns.APPROACHING_PATTERNS text (pyLower text) hex
  obtain ⟨r, hr⟩ := Option.ne_none_iff_exists'.mp hne
  have hext : extract_rate_limit_info text = some r := by
    unfold extract_rate_limit_info
    simp only [hr]
  have htyp : r.type = "approaching" := by
    obtain ⟨p, hp, cap, hsr, hmk⟩ := checkList_eq_some hr
    rw [hmk]
    rfl
  exact ⟨r, hext, by rw [hext, hr], htyp, by rw [htyp]; decide⟩

/-- C2, witness: the line both matches an approaching pattern
(`rate\s*limit.*?approaching.*?(\d+)`) and a reached pattern
(`rate\s*limit.*?reached.*?(\d+)`), yet is classified `"approaching"`. -/
theorem approaching_priority_witness :
    ∃ r, extract_rate_limit_info "rate limit approaching and reached 100" = some r ∧
      extract_rate_limit_info "rate limit approaching and reached 100" =
        checkList "approaching" RateLimitPatterns.APPROACHING_PATTERNS
          "rate limit approaching and reached 100"
          (pyLower "rate limit approaching and reached 100") ∧
      r.type = "approaching" ∧ r.type ≠ "reached" :=
  approaching_priority "rate limit approaching and reached 100"
    ⟨RateLimitPatterns.pApp3, by decide, by decide⟩

/-! ## C3 -/

theorem approaching_patterns_have_group :
    ∀ p ∈ RateLimitPatterns.APPROACHING_PATTERNS, RTok.grpDigits ∈ p.toks :=
  fun p hp => all_patterns_have_group p
    (List.mem_append_left _ (List.mem_append_left _ hp))

theorem reached_patterns_have_group :
    ∀ p ∈ RateLimitPatterns.REACHED_PATTERNS, RTok.grpDigits ∈ p.toks :=
  fun p hp => all_patterns_have_group p
    (List.mem_append_left _ (List.mem_append_right _ hp))

theorem message_patterns_have_group :
    ∀ p ∈ RateLimitPatterns.MESSAGE_LIMIT_PATTERNS, RTok.grpDigits ∈ p.toks :=
  fun p hp => all_patterns_have_group p (List.mem_append_right _ hp)

/-- C3: whenever the extractor reports a match, `limit_value` is exactly
the decimal value of the digits captured by the matching pattern's group;
and on the three inputs named by the specification it returns
`("reached", 19000)`, `("approaching", 5000)` and `None` respectively. -/
theorem limit_value_exact :
    (∀ (text : String) (r : RateLimitInfo),
      extract_rate_limit_info text = some r →
      ∃ g, isdigitL g = true ∧ r.limit_value = some (digitsVal g) ∧
        ∃ p, (p ∈ RateLimitPatterns.APPROACHING_PATTERNS ∨
              p ∈ RateLimitPatterns.REACHED_PATTERNS ∨
              p ∈ RateLimitPatterns.MESSAGE_LIMIT_PATTERNS) ∧
          reSearch p.toks (pyLower text) = some (some g) ∧
          r.pattern_matched = p.src) ∧
    (extract_rate_limit_info "RATE LIMIT REACHED|19000").map
      (fun r => (r.type, r.limit_value)) = some ("reached", some 19000) ∧
    (extract_rate_limit_info "Rate limit approaching, 5000 tokens remaining").map
      (fun r => (r.type, r.limit_value)) = some ("approaching", some 5000) ∧
    extract_rate_limit_info "No rate limit information here" = none := by
  refine ⟨?_, by decide, by decide, by decide⟩
  intro text r hr
  unfold extract_rate_limit_info at hr
  simp only at hr
  cases happ : checkList "approaching" RateLimitPatterns.APPROACHING_PATTERNS
      text (pyLower text) with
  | some r1 =>
    rw [happ] at hr
    cases hr
    obtain ⟨_, g, hdig, hlv, p, hp, hsr, hpm⟩ :=
      checkList_capture approaching_patterns_have_group happ
    exact ⟨g, hdig, hlv, p, Or.inl hp, hsr, hpm⟩
  | none =>
    rw [happ] at hr
    cases hrch : checkList "reached" RateLimitPatterns.REACHED_PATTERNS
        text (pyLower text) with
    | some r2 =>
      rw [hrch] at hr
      cases hr
      obtain ⟨_, g, hdig, hlv, p, hp, hsr, hpm⟩ :=
        checkList_capture reached_patterns_have_group hrch
      exact ⟨g, hdig, hlv, p, Or.inr (Or.inl hp), hsr, hpm⟩
    | none =>
      rw [hrch] at hr
      obtain ⟨_, g, hdig, hlv, p, hp, hsr, hpm⟩ :=
        checkList_capture message_patterns_have_group hr
      exact ⟨g, hdig, hlv, p, Or.inr (Or.inr hp), hsr, hpm⟩

/-- C3, witness for the universal clause: on `"RATE LIMIT REACHED|19000"`
the reported `limit_value` is the decimal value of a captured digit
group. -/
theorem limit_value_exact_witness :
    ∃ r g, extract_rate_limit_info "RATE LIMIT REACHED|19000" = some r ∧
      isdigitL g = true ∧ r.limit_value = some (digitsVal g) := by
  have hr : extract_rate_limit_info "RATE LIMIT REACHED|19000" =
      some ⟨"reached", some 19000, "RATE LIMIT REACHED|19000",
            "rate\\s*limit.*?reached.*?(\\d+)"⟩ := by decide
  obtain ⟨g, hdig, hlv, _⟩ :=
    limit_value_exact.1 "RATE LIMIT REACHED|19000" _ hr
  exact ⟨_, g, hr, hdig, hlv⟩

/-! ## C6 -/

theorem checkListE_eq_ok (typ : String) (text : String) (tl : List Char) :
    ∀ pats : List RPat, (∀ p ∈ pats, RTok.grpDigits ∈ p.toks) →
      checkListE typ pats text tl = .ok (checkList typ pats text tl) := by
  intro pats
  induction pats with
  | nil => intro _; rfl
  | cons p ps ih =>
    intro hall
    cases hsr : reSearch p.toks tl with
    | none =>
      have hskip : checkList typ (p :: ps) text tl = checkList typ ps text tl := by
        unfold checkList
        rw [List.findSome?_cons]
        simp [hsr]
      rw [checkListE, hsr, hskip]
      exact ih fun q hq => hall q (List.mem_cons_of_mem p hq)
    | some cap =>
      obtain ⟨g, hg, hdig⟩ := reSearch_grpDigits_capture p.toks tl cap
        (hall p (List.mem_cons_self p ps)) hsr
      subst hg
      have hhead : checkList typ (p :: ps) text tl =
          some (makeMatchInfo typ p text (some g)) := by
        unfold checkList
        rw [List.findSome?_cons]
        simp [hsr]
      rw [checkListE, hsr, hhead]
      simp [limitValueOfCapE, pyIntE, hdig, makeMatchInfo, limitValueOfCap,
        Except.map]

/-- C6: the extractor is total — on every input line, including malformed
or partial ones, the raising model returns `.ok` of the pure result, so no
exception propagates; `None` (no match) is the only failure mode, and in
particular the `int(...)` conversion is reached only behind the `isdigit`
guard, where it cannot raise. -/
theorem extract_never_raises (text : String) :
    extract_rate_limit_infoE text = .ok (extract_rate_limit_info text) := by
  unfold extract_rate_limit_infoE extract_rate_limit_info
  simp only
  rw [checkListE_eq_ok _ _ _ _ approaching_patterns_have_group]
  cases checkList "approaching" RateLimitPatterns.APPROACHING_PATTERNS text
      (pyLower text) with
  | some r => rfl
  | none =>
    simp only
    rw [checkListE_eq_ok _ _ _ _ reached_patterns_have_group]
    cases checkList "reached" RateLimitPatterns.REACHED_PATTERNS text
        (pyLower text) with
    | some r => rfl
    | none =>
      simp only
      exact checkListE_eq_ok _ _ _ _ message_patterns_have_group

end ClaudeWatch
